import Mathlib

/-!
Verification of the heading-processing core of the compass application
(`src/App.js`): the cardinal-direction classifier, the shortest-arc
heading smoother, and the edge-triggered direction-change event logic.

JavaScript numbers are modelled as exact rationals (`ℚ`); the raw-heading
computation `Math.atan2` is modelled over the reals via `Complex.arg`.
The JavaScript remainder operator `%` (which truncates toward zero, so its
result carries the sign of the dividend) is modelled by `jsRem`.
-/

/-- Truncation toward zero on `ℚ`, the rounding JavaScript applies to the
quotient when evaluating the `%` operator. -/
def ratTrunc (q : ℚ) : ℤ := if 0 ≤ q then ⌊q⌋ else ⌈q⌉

/-- The JavaScript remainder `a % b`: `a - b * trunc(a / b)`.  For `b > 0`
the result has the sign of `a`, unlike the mathematical mod. -/
def jsRem (a b : ℚ) : ℚ := a - b * (ratTrunc (a / b) : ℚ)

/-- One row of the `CARDINAL_DIRECTIONS` table in `src/App.js`. -/
structure DirRange where
  label : String
  min : ℚ
  max : ℚ
  color : String

/-- The constant direction table from `src/App.js` (angles in degrees;
`22.5 = 45/2`, `67.5 = 135/2`, ..., `337.5 = 675/2`).  The `N` row wraps:
its `min` (337.5) exceeds its `max` (22.5). -/
def CARDINAL_DIRECTIONS : List DirRange := [
  { label := "N", min := 675/2, max := 45/2, color := "#FF5252" },
  { label := "NE", min := 45/2, max := 135/2, color := "#FFFFFF" },
  { label := "E", min := 135/2, max := 225/2, color := "#4CAF50" },
  { label := "SE", min := 225/2, max := 315/2, color := "#FFFFFF" },
  { label := "S", min := 315/2, max := 405/2, color := "#2196F3" },
  { label := "SW", min := 405/2, max := 495/2, color := "#FFFFFF" },
  { label := "W", min := 495/2, max := 585/2, color := "#FFC107" },
  { label := "NW", min := 585/2, max := 675/2, color := "#FFFFFF" }]

/-- The `PRIMARY_DIRECTIONS` constant from `src/App.js`. -/
def PRIMARY_DIRECTIONS : List String := ["N", "E", "S", "W"]

/-- The per-row predicate inside `getCardinalDirection`'s `find`:
`(dir.min > dir.max) ? a >= dir.min || a < dir.max
                     : a >= dir.min && a < dir.max`. -/
def dirMatches (normalizedAngle : ℚ) (dir : DirRange) : Bool :=
  if dir.min > dir.max then
    decide (normalizedAngle ≥ dir.min ∨ normalizedAngle < dir.max)
  else
    decide (normalizedAngle ≥ dir.min ∧ normalizedAngle < dir.max)

/-- `getCardinalDirection` from `src/App.js`: normalize the input via
`(currentAngle + 360) % 360` (JS remainder), scan the table in order,
return the first matching label, or `""` if none matches. -/
def getCardinalDirection (currentAngle : ℚ) : String :=
  match CARDINAL_DIRECTIONS.find? (dirMatches (jsRem (currentAngle + 360) 360)) with
  | some dir => dir.label
  | none => ""

/-- The damping constant hard-coded as `0.3` in `src/App.js`. -/
def dampingFactor : ℚ := 3/10

/-- The delta computed by the magnetometer callback in `src/App.js`:
`delta = heading - currentValue`, then
`if (Math.abs(delta) > 180) delta = delta > 0 ? delta - 360 : delta + 360`. -/
def correctedDelta (currentValue heading : ℚ) : ℚ :=
  if |heading - currentValue| > 180 then
    (if heading - currentValue > 0 then heading - currentValue - 360
     else heading - currentValue + 360)
  else heading - currentValue

/-- One smoothing step of the magnetometer callback in `src/App.js`:
`newAngle = (currentValue + delta * d) % 360` with JS remainder.
The source fixes `d = 0.3` (`dampingFactor`). -/
def smoothStep (currentValue heading d : ℚ) : ℚ :=
  jsRem (currentValue + correctedDelta currentValue heading * d) 360

/-- Mathematical mod into `[0,360)` (not what the source computes; used
only to define circular distance between headings). -/
def mathMod (a : ℚ) : ℚ := a - 360 * ⌊a / 360⌋

/-- Circular (shorter-arc) distance in degrees between two angles. -/
def circDist (a b : ℚ) : ℚ := min (mathMod (a - b)) (360 - mathMod (a - b))

/-- The haptic/event logic at the end of the magnetometer callback in
`src/App.js`: the returned `Bool` is `true` exactly when the haptic pulse
fires (`newDirection` is primary and differs from `lastDirection`), and the
returned `String` is the updated `lastDirection`. -/
def listenerDirStep (lastDirection newDirection : String) : Bool × String :=
  if PRIMARY_DIRECTIONS.contains newDirection then
    (if newDirection ≠ lastDirection then (true, newDirection)
     else (false, lastDirection))
  else (false, lastDirection)

/-- Fold `listenerDirStep` over a sequence of classified labels, collecting
the fired/not-fired flag of each step and the final `lastDirection`. -/
def runDirections (labels : List String) (lastDirection : String) :
    List Bool × String :=
  match labels with
  | [] => ([], lastDirection)
  | l :: ls =>
    let step := listenerDirStep lastDirection l
    let rest := runDirections ls step.2
    (step.1 :: rest.1, rest.2)

/-- A JavaScript number that may be `NaN` (`none`).  Used to model how the
callback in `src/App.js` behaves on non-finite input, which the code never
checks for. -/
def NanQ : Type := Option ℚ

/-- Addition with `NaN` propagation. -/
def nAdd (a b : NanQ) : NanQ :=
  match a, b with
  | some x, some y => some (x + y)
  | _, _ => none

/-- Subtraction with `NaN` propagation. -/
def nSub (a b : NanQ) : NanQ :=
  match a, b with
  | some x, some y => some (x - y)
  | _, _ => none

/-- Multiplication with `NaN` propagation. -/
def nMul (a b : NanQ) : NanQ :=
  match a, b with
  | some x, some y => some (x * y)
  | _, _ => none

/-- `Math.abs`, `NaN` on `NaN`. -/
def nAbs (a : NanQ) : NanQ := a.map (fun x => |x|)

/-- The JS comparison `a > b`, which is `false` whenever an operand is
`NaN`. -/
def nGt (a b : NanQ) : Bool :=
  match a, b with
  | some x, some y => decide (x > y)
  | _, _ => false

/-- `%` with `NaN` propagation. -/
def nJsRem (a b : NanQ) : NanQ :=
  match a, b with
  | some x, some y => some (jsRem x y)
  | _, _ => none

/-- The smoothing computation of the magnetometer callback in `src/App.js`
carried out on possibly-`NaN` values, exactly as the untyped JS executes it:
a `NaN` heading (which `Math.atan2` produces when a sample coordinate is
`NaN`, and which survives `heading >= 0 ? heading : 360 + heading` since
`NaN >= 0` is false) flows through `delta`, both comparisons evaluate to
`false`, and the final `%` yields `NaN`, which `setAngle` then stores. -/
def nanSmoothStep (currentValue heading : NanQ) : NanQ :=
  let delta := nSub heading currentValue
  let delta2 := if nGt (nAbs delta) (some 180) then
      (if nGt delta (some 0) then nSub delta (some 360)
       else nAdd delta (some 360))
    else delta
  nJsRem (nAdd currentValue (nMul delta2 (some dampingFactor))) (some 360)

/-- The two-argument arctangent, modelled by the complex argument:
`atan2 y x = arg (x + y i) ∈ (-π, π]`, with `atan2 0 0 = 0` exactly as
JavaScript's `Math.atan2(0, 0)` returns `0`. -/
noncomputable def atan2 (y x : ℝ) : ℝ := Complex.arg ⟨x, y⟩

/-- The raw heading computed at the top of the magnetometer callback in
`src/App.js`: `heading = Math.atan2(y, x) * (180 / Math.PI);
heading = heading >= 0 ? heading : 360 + heading`. -/
noncomputable def rawHeading (x y : ℝ) : ℝ :=
  if atan2 y x * (180 / Real.pi) ≥ 0 then atan2 y x * (180 / Real.pi)
  else 360 + atan2 y x * (180 / Real.pi)

lemma ratTrunc_of_nonneg {q : ℚ} (h : 0 ≤ q) : ratTrunc q = ⌊q⌋ := if_pos h

lemma ratTrunc_of_neg {q : ℚ} (h : q < 0) : ratTrunc q = ⌈q⌉ := if_neg (not_le.mpr h)

lemma jsRem_window_pos {a : ℚ} (k : ℤ) (hk : 0 ≤ k) (h0 : 360 * k ≤ a)
    (h1 : a < 360 * (k + 1)) : jsRem a 360 = a - 360 * k := by
  have h360 : (0:ℚ) < 360 := by norm_num
  have hq : (0:ℚ) ≤ a / 360 := by
    apply div_nonneg _ h360.le
    calc (0:ℚ) = 360 * 0 := by ring
    _ ≤ 360 * k := by
        apply mul_le_mul_of_nonneg_left _ h360.le
        exact_mod_cast hk
    _ ≤ a := h0
  have hfl : ⌊a / 360⌋ = k := by
    rw [Int.floor_eq_iff]
    constructor
    · rw [le_div_iff₀ h360]
      linarith
    · rw [div_lt_iff₀ h360]
      push_cast
      linarith
  rw [jsRem, ratTrunc_of_nonneg hq, hfl]

lemma jsRem_window_neg {a : ℚ} (k : ℤ) (h0 : 360 * (k - 1) < a)
    (h1 : a ≤ 360 * k) (ha : a < 0) : jsRem a 360 = a - 360 * k := by
  have h360 : (0:ℚ) < 360 := by norm_num
  have hq : a / 360 < 0 := div_neg_of_neg_of_pos ha h360
  have hcl : ⌈a / 360⌉ = k := by
    rw [Int.ceil_eq_iff]
    constructor
    · rw [lt_div_iff₀ h360]
      push_cast
      linarith
    · rw [div_le_iff₀ h360]
      linarith
  rw [jsRem, ratTrunc_of_neg hq, hcl]

lemma jsRem_eq_add_int_mul (a : ℚ) : ∃ k : ℤ, jsRem a 360 = a + 360 * k := by
  refine ⟨-(ratTrunc (a / 360)), ?_⟩
  rw [jsRem]
  push_cast
  ring

lemma jsRem_bounds (a : ℚ) : -360 < jsRem a 360 ∧ jsRem a 360 < 360 := by
  rcases le_or_lt 0 (a / 360) with hq | hq
  · rw [jsRem, ratTrunc_of_nonneg hq]
    constructor
    · nlinarith [Int.floor_le (a / 360)]
    · nlinarith [Int.lt_floor_add_one (a / 360)]
  · rw [jsRem, ratTrunc_of_neg hq]
    constructor
    · nlinarith [Int.ceil_lt_add_one (a / 360)]
    · nlinarith [Int.le_ceil (a / 360)]

lemma mathMod_add_int_mul (a : ℚ) (k : ℤ) : mathMod (a + 360 * k) = mathMod a := by
  rw [mathMod, mathMod]
  have h : (a + 360 * k) / 360 = a / 360 + k := by
    field_simp
    ring
  rw [h, Int.floor_add_int]
  push_cast
  ring

lemma mathMod_of_mem {a : ℚ} (h0 : 0 ≤ a) (h1 : a < 360) : mathMod a = a := by
  rw [mathMod]
  have h : ⌊a / 360⌋ = 0 := by
    rw [Int.floor_eq_iff]
    constructor
    · positivity
    · rw [div_lt_iff₀ (by norm_num : (0:ℚ) < 360)]
      push_cast
      linarith
  rw [h]
  norm_num

lemma circDist_shift {t : ℚ} (ht : |t| ≤ 180) (b : ℚ) (k : ℤ) :
    circDist (b + t + 360 * k) b = |t| := by
  have h : b + t + 360 * k - b = t + 360 * k := by ring
  rw [circDist, h, mathMod_add_int_mul]
  rcases le_or_lt 0 t with hs | hs
  · rw [abs_of_nonneg hs] at ht ⊢
    rw [mathMod_of_mem hs (by linarith)]
    exact min_eq_left (by linarith)
  · rw [abs_of_neg hs] at ht ⊢
    have h2 : mathMod t = t + 360 := by
      have h3 := mathMod_add_int_mul (t + 360) (-1)
      push_cast at h3
      rw [show t + 360 + 360 * (-1 : ℚ) = t by ring] at h3
      rw [h3, mathMod_of_mem (by linarith) (by linarith)]
    rw [h2, show (360:ℚ) - (t + 360) = -t by ring,
      min_eq_right (show -t ≤ t + 360 by linarith)]

lemma correctedDelta_abs_le {p r : ℚ} (hp0 : 0 ≤ p) (hp1 : p < 360)
    (hr0 : 0 ≤ r) (hr1 : r < 360) : |correctedDelta p r| ≤ 180 := by
  rw [correctedDelta]
  rcases le_or_lt (|r - p|) 180 with h | h
  · rw [if_neg (not_lt.mpr h)]
    exact h
  · rw [if_pos h]
    rcases lt_or_le 0 (r - p) with hpos | hneg
    · rw [if_pos hpos, abs_le]
      have h2 : 180 < |r - p| := h
      rw [abs_of_pos hpos] at h2
      constructor <;> linarith
    · rw [if_neg (not_lt.mpr hneg), abs_le]
      have h2 : 180 < |r - p| := h
      rw [abs_of_nonpos (by linarith)] at h2
      constructor <;> linarith

lemma circDist_smoothStep {p r d : ℚ} (hp0 : 0 ≤ p) (hp1 : p < 360)
    (hr0 : 0 ≤ r) (hr1 : r < 360) (hd0 : 0 ≤ d) (hd1 : d ≤ 1) :
    circDist (smoothStep p r d) p = |correctedDelta p r| * d := by
  have habs : |correctedDelta p r * d| ≤ 180 := by
    rw [abs_mul, abs_of_nonneg hd0]
    have h1 := correctedDelta_abs_le hp0 hp1 hr0 hr1
    have h2 : |correctedDelta p r| * d ≤ |correctedDelta p r| * 1 :=
      mul_le_mul_of_nonneg_left hd1 (abs_nonneg _)
    nlinarith
  obtain ⟨k, hk⟩ := jsRem_eq_add_int_mul (p + correctedDelta p r * d)
  rw [smoothStep, hk, show p + correctedDelta p r * d + 360 * k
      = p + (correctedDelta p r * d) + 360 * k by ring,
    circDist_shift habs, abs_mul, abs_of_nonneg hd0]

lemma countP_expand (a : ℚ) : CARDINAL_DIRECTIONS.countP (dirMatches a) =
    ((if (a ≥ 675/2 ∨ a < 45/2) then 1 else 0) +
      (if (a ≥ 45/2 ∧ a < 135/2) then 1 else 0) +
      (if (a ≥ 135/2 ∧ a < 225/2) then 1 else 0) +
      (if (a ≥ 225/2 ∧ a < 315/2) then 1 else 0) +
      (if (a ≥ 315/2 ∧ a < 405/2) then 1 else 0) +
      (if (a ≥ 405/2 ∧ a < 495/2) then 1 else 0) +
      (if (a ≥ 495/2 ∧ a < 585/2) then 1 else 0) +
      (if (a ≥ 585/2 ∧ a < 675/2) then 1 else 0)) := by
  simp only [CARDINAL_DIRECTIONS, List.countP_cons, List.countP_nil, dirMatches,
    decide_eq_true_eq]
  norm_num only
  (try simp only [if_true, if_false, decide_eq_true_eq])
  ring

lemma norm_of_mem {a : ℚ} (h0 : 0 ≤ a) (h1 : a < 360) :
    jsRem (a + 360) 360 = a := by
  have h := jsRem_window_pos (a := a + 360) 1 (by norm_num)
    (by push_cast; linarith) (by push_cast; linarith)
  rw [h]
  push_cast
  ring

lemma jsRem_eq_mathMod {a : ℚ} (h : 0 ≤ a) : jsRem a 360 = mathMod a := by
  rw [jsRem, mathMod, ratTrunc_of_nonneg (div_nonneg h (by norm_num))]

lemma mathMod_bounds (a : ℚ) : 0 ≤ mathMod a ∧ mathMod a < 360 := by
  rw [mathMod]
  constructor
  · nlinarith [Int.floor_le (a / 360)]
  · nlinarith [Int.lt_floor_add_one (a / 360)]
lemma countP_eq_one {a : ℚ} (h0 : 0 ≤ a) (h1 : a < 360) :
    CARDINAL_DIRECTIONS.countP (dirMatches a) = 1 := by
  rw [countP_expand]
  rcases lt_or_le a (45/2) with hI0 | hI0
  · rw [if_pos (show a ≥ 675/2 ∨ a < 45/2 from Or.inr (by linarith))]
    rw [if_neg (show ¬(a ≥ 45/2 ∧ a < 135/2) by rintro ⟨hx, hy⟩; linarith)]
    rw [if_neg (show ¬(a ≥ 135/2 ∧ a < 225/2) by rintro ⟨hx, hy⟩; linarith)]
    rw [if_neg (show ¬(a ≥ 225/2 ∧ a < 315/2) by rintro ⟨hx, hy⟩; linarith)]
    rw [if_neg (show ¬(a ≥ 315/2 ∧ a < 405/2) by rintro ⟨hx, hy⟩; linarith)]
    rw [if_neg (show ¬(a ≥ 405/2 ∧ a < 495/2) by rintro ⟨hx, hy⟩; linarith)]
    rw [if_neg (show ¬(a ≥ 495/2 ∧ a < 585/2) by rintro ⟨hx, hy⟩; linarith)]
    rw [if_neg (show ¬(a ≥ 585/2 ∧ a < 675/2) by rintro ⟨hx, hy⟩; linarith)]
  rcases lt_or_le a (135/2) with hI1 | hI1
  · rw [if_neg (show ¬(a ≥ 675/2 ∨ a < 45/2) by rintro (hx | hx) <;> linarith)]
    rw [if_pos (show a ≥ 45/2 ∧ a < 135/2 from ⟨by linarith, by linarith⟩)]
    rw [if_neg (show ¬(a ≥ 135/2 ∧ a < 225/2) by rintro ⟨hx, hy⟩; linarith)]
    rw [if_neg (show ¬(a ≥ 225/2 ∧ a < 315/2) by rintro ⟨hx, hy⟩; linarith)]
    rw [if_neg (show ¬(a ≥ 315/2 ∧ a < 405/2) by rintro ⟨hx, hy⟩; linarith)]
    rw [if_neg (show ¬(a ≥ 405/2 ∧ a < 495/2) by rintro ⟨hx, hy⟩; linarith)]
    rw [if_neg (show ¬(a ≥ 495/2 ∧ a < 585/2) by rintro ⟨hx, hy⟩; linarith)]
    rw [if_neg (show ¬(a ≥ 585/2 ∧ a < 675/2) by rintro ⟨hx, hy⟩; linarith)]
  rcases lt_or_le a (225/2) with hI2 | hI2
  · rw [if_neg (show ¬(a ≥ 675/2 ∨ a < 45/2) by rintro (hx | hx) <;> linarith)]
    rw [if_neg (show ¬(a ≥ 45/2 ∧ a < 135/2) by rintro ⟨hx, hy⟩; linarith)]
    rw [if_pos (show a ≥ 135/2 ∧ a < 225/2 from ⟨by linarith, by linarith⟩)]
    rw [if_neg (show ¬(a ≥ 225/2 ∧ a < 315/2) by rintro ⟨hx, hy⟩; linarith)]
    rw [if_neg (show ¬(a ≥ 315/2 ∧ a < 405/2) by rintro ⟨hx, hy⟩; linarith)]
    rw [if_neg (show ¬(a ≥ 405/2 ∧ a < 495/2) by rintro ⟨hx, hy⟩; linarith)]
    rw [if_neg (show ¬(a ≥ 495/2 ∧ a < 585/2) by rintro ⟨hx, hy⟩; linarith)]
    rw [if_neg (show ¬(a ≥ 585/2 ∧ a < 675/2) by rintro ⟨hx, hy⟩; linarith)]
  rcases lt_or_le a (315/2) with hI3 | hI3
  · rw [if_neg (show ¬(a ≥ 675/2 ∨ a < 45/2) by rintro (hx | hx) <;> linarith)]
    rw [if_neg (show ¬(a ≥ 45/2 ∧ a < 135/2) by rintro ⟨hx, hy⟩; linarith)]
    rw [if_neg (show ¬(a ≥ 135/2 ∧ a < 225/2) by rintro ⟨hx, hy⟩; linarith)]
    rw [if_pos (show a ≥ 225/2 ∧ a < 315/2 from ⟨by linarith, by linarith⟩)]
    rw [if_neg (show ¬(a ≥ 315/2 ∧ a < 405/2) by rintro ⟨hx, hy⟩; linarith)]
    rw [if_neg (show ¬(a ≥ 405/2 ∧ a < 495/2) by rintro ⟨hx, hy⟩; linarith)]
    rw [if_neg (show ¬(a ≥ 495/2 ∧ a < 585/2) by rintro ⟨hx, hy⟩; linarith)]
    rw [if_neg (show ¬(a ≥ 585/2 ∧ a < 675/2) by rintro ⟨hx, hy⟩; linarith)]
  rcases lt_or_le a (405/2) with hI4 | hI4
  · rw [if_neg (show ¬(a ≥ 675/2 ∨ a < 45/2) by rintro (hx | hx) <;> linarith)]
    rw [if_neg (show ¬(a ≥ 45/2 ∧ a < 135/2) by rintro ⟨hx, hy⟩; linarith)]
    rw [if_neg (show ¬(a ≥ 135/2 ∧ a < 225/2) by rintro ⟨hx, hy⟩; linarith)]
    rw [if_neg (show ¬(a ≥ 225/2 ∧ a < 315/2) by rintro ⟨hx, hy⟩; linarith)]
    rw [if_pos (show a ≥ 315/2 ∧ a < 405/2 from ⟨by linarith, by linarith⟩)]
    rw [if_neg (show ¬(a ≥ 405/2 ∧ a < 495/2) by rintro ⟨hx, hy⟩; linarith)]
    rw [if_neg (show ¬(a ≥ 495/2 ∧ a < 585/2) by rintro ⟨hx, hy⟩; linarith)]
    rw [if_neg (show ¬(a ≥ 585/2 ∧ a < 675/2) by rintro ⟨hx, hy⟩; linarith)]
  rcases lt_or_le a (495/2) with hI5 | hI5
  · rw [if_neg (show ¬(a ≥ 675/2 ∨ a < 45/2) by rintro (hx | hx) <;> linarith)]
    rw [if_neg (show ¬(a ≥ 45/2 ∧ a < 135/2) by rintro ⟨hx, hy⟩; linarith)]
    rw [if_neg (show ¬(a ≥ 135/2 ∧ a < 225/2) by rintro ⟨hx, hy⟩; linarith)]
    rw [if_neg (show ¬(a ≥ 225/2 ∧ a < 315/2) by rintro ⟨hx, hy⟩; linarith)]
    rw [if_neg (show ¬(a ≥ 315/2 ∧ a < 405/2) by rintro ⟨hx, hy⟩; linarith)]
    rw [if_pos (show a ≥ 405/2 ∧ a < 495/2 from ⟨by linarith, by linarith⟩)]
    rw [if_neg (show ¬(a ≥ 495/2 ∧ a < 585/2) by rintro ⟨hx, hy⟩; linarith)]
    rw [if_neg (show ¬(a ≥ 585/2 ∧ a < 675/2) by rintro ⟨hx, hy⟩; linarith)]
  rcases lt_or_le a (585/2) with hI6 | hI6
  · rw [if_neg (show ¬(a ≥ 675/2 ∨ a < 45/2) by rintro (hx | hx) <;> linarith)]
    rw [if_neg (show ¬(a ≥ 45/2 ∧ a < 135/2) by rintro ⟨hx, hy⟩; linarith)]
    rw [if_neg (show ¬(a ≥ 135/2 ∧ a < 225/2) by rintro ⟨hx, hy⟩; linarith)]
    rw [if_neg (show ¬(a ≥ 225/2 ∧ a < 315/2) by rintro ⟨hx, hy⟩; linarith)]
    rw [if_neg (show ¬(a ≥ 315/2 ∧ a < 405/2) by rintro ⟨hx, hy⟩; linarith)]
    rw [if_neg (show ¬(a ≥ 405/2 ∧ a < 495/2) by rintro ⟨hx, hy⟩; linarith)]
    rw [if_pos (show a ≥ 495/2 ∧ a < 585/2 from ⟨by linarith, by linarith⟩)]
    rw [if_neg (show ¬(a ≥ 585/2 ∧ a < 675/2) by rintro ⟨hx, hy⟩; linarith)]
  rcases lt_or_le a (675/2) with hI7 | hI7
  · rw [if_neg (show ¬(a ≥ 675/2 ∨ a < 45/2) by rintro (hx | hx) <;> linarith)]
    rw [if_neg (show ¬(a ≥ 45/2 ∧ a < 135/2) by rintro ⟨hx, hy⟩; linarith)]
    rw [if_neg (show ¬(a ≥ 135/2 ∧ a < 225/2) by rintro ⟨hx, hy⟩; linarith)]
    rw [if_neg (show ¬(a ≥ 225/2 ∧ a < 315/2) by rintro ⟨hx, hy⟩; linarith)]
    rw [if_neg (show ¬(a ≥ 315/2 ∧ a < 405/2) by rintro ⟨hx, hy⟩; linarith)]
    rw [if_neg (show ¬(a ≥ 405/2 ∧ a < 495/2) by rintro ⟨hx, hy⟩; linarith)]
    rw [if_neg (show ¬(a ≥ 495/2 ∧ a < 585/2) by rintro ⟨hx, hy⟩; linarith)]
    rw [if_pos (show a ≥ 585/2 ∧ a < 675/2 from ⟨by linarith, by linarith⟩)]
  rw [if_pos (show a ≥ 675/2 ∨ a < 45/2 from Or.inl (by linarith))]
  rw [if_neg (show ¬(a ≥ 45/2 ∧ a < 135/2) by rintro ⟨hx, hy⟩; linarith)]
  rw [if_neg (show ¬(a ≥ 135/2 ∧ a < 225/2) by rintro ⟨hx, hy⟩; linarith)]
  rw [if_neg (show ¬(a ≥ 225/2 ∧ a < 315/2) by rintro ⟨hx, hy⟩; linarith)]
  rw [if_neg (show ¬(a ≥ 315/2 ∧ a < 405/2) by rintro ⟨hx, hy⟩; linarith)]
  rw [if_neg (show ¬(a ≥ 405/2 ∧ a < 495/2) by rintro ⟨hx, hy⟩; linarith)]
  rw [if_neg (show ¬(a ≥ 495/2 ∧ a < 585/2) by rintro ⟨hx, hy⟩; linarith)]
  rw [if_neg (show ¬(a ≥ 585/2 ∧ a < 675/2) by rintro ⟨hx, hy⟩; linarith)]

lemma getCardinalDirection_mem_labels {a : ℚ} (h0 : 0 ≤ a) (h1 : a < 360) :
    getCardinalDirection a ∈ ["N", "NE", "E", "SE", "S", "SW", "W", "NW"] := by
  have hcount := countP_eq_one h0 h1
  have hex : ∃ d ∈ CARDINAL_DIRECTIONS, dirMatches a d = true := by
    rw [← List.countP_pos]
    omega
  have hsome : (CARDINAL_DIRECTIONS.find? (dirMatches a)).isSome := by
    rw [List.find?_isSome]
    exact hex
  obtain ⟨d, hd⟩ := Option.isSome_iff_exists.mp hsome
  have hmem : d ∈ CARDINAL_DIRECTIONS := List.mem_of_find?_eq_some hd
  rw [getCardinalDirection, norm_of_mem h0 h1, hd]
  simp only [CARDINAL_DIRECTIONS, List.mem_cons, List.not_mem_nil, or_false] at hmem
  rcases hmem with rfl | rfl | rfl | rfl | rfl | rfl | rfl | rfl <;> simp

/-- C1: for every angle in [0,360), classification matches exactly one row
of the fixed 8-label table (no gaps, no overlap) and returns a label of
that table; boundary values belong to the range whose min they equal:
classify 22.5 = "NE", classify 337.5 = "N", classify 0 = "N",
classify 359.999 = "N". -/
theorem C1_classification_totality :
    (∀ a : ℚ, 0 ≤ a → a < 360 →
      CARDINAL_DIRECTIONS.countP (dirMatches a) = 1 ∧
      getCardinalDirection a ∈ ["N", "NE", "E", "SE", "S", "SW", "W", "NW"]) ∧
    getCardinalDirection (45/2) = "NE" ∧
    getCardinalDirection (675/2) = "N" ∧
    getCardinalDirection 0 = "N" ∧
    getCardinalDirection (359999/1000) = "N" := by
  refine ⟨fun a h0 h1 => ⟨countP_eq_one h0 h1, getCardinalDirection_mem_labels h0 h1⟩,
    ?_, ?_, ?_, ?_⟩
  · rw [getCardinalDirection, norm_of_mem (by norm_num) (by norm_num)]
    norm_num [CARDINAL_DIRECTIONS, dirMatches, List.find?]
  · rw [getCardinalDirection, norm_of_mem (by norm_num) (by norm_num)]
    norm_num [CARDINAL_DIRECTIONS, dirMatches, List.find?]
  · rw [getCardinalDirection, norm_of_mem (by norm_num) (by norm_num)]
    norm_num [CARDINAL_DIRECTIONS, dirMatches, List.find?]
  · rw [getCardinalDirection, norm_of_mem (by norm_num) (by norm_num)]
    norm_num [CARDINAL_DIRECTIONS, dirMatches, List.find?]

/-- Witness for C1 at the concrete angle 100. -/
theorem C1_witness :
    ((0:ℚ) ≤ 100 ∧ (100:ℚ) < 360) ∧
    (CARDINAL_DIRECTIONS.countP (dirMatches 100) = 1 ∧
      getCardinalDirection 100 ∈ ["N", "NE", "E", "SE", "S", "SW", "W", "NW"]) :=
  ⟨⟨by norm_num, by norm_num⟩,
    C1_classification_totality.1 100 (by norm_num) (by norm_num)⟩

lemma correctedDelta_350_10 : correctedDelta 350 10 = 20 := by
  rw [correctedDelta]
  norm_num

lemma smoothStep_350_10 : smoothStep 350 10 dampingFactor = 356 := by
  rw [smoothStep, correctedDelta_350_10, dampingFactor]
  norm_num
  have h := jsRem_window_pos (a := 356) 0 le_rfl (by norm_num) (by norm_num)
  rw [h]
  norm_num

/-- C2: the smoother applies shortest-arc correction: with
delta = rawSample - previous, if |delta| > 180 then delta is replaced by
delta - 360 (if delta > 0) or delta + 360 (if delta ≤ 0); in particular for
previous = 350, rawSample = 10, dampingFactor = 0.3 the corrected delta is
20 (not -340) and the result is 356. -/
theorem C2_shortest_arc_correction :
    (∀ p r : ℚ, |r - p| > 180 →
      correctedDelta p r = (if r - p > 0 then r - p - 360 else r - p + 360)) ∧
    correctedDelta 350 10 = 20 ∧
    smoothStep 350 10 dampingFactor = 356 := by
  refine ⟨fun p r h => ?_, correctedDelta_350_10, smoothStep_350_10⟩
  rw [correctedDelta, if_pos h]

/-- Witness for C2's corrected-delta rule at previous = 350, raw = 10. -/
theorem C2_witness :
    |(10:ℚ) - 350| > 180 ∧
    correctedDelta 350 10 =
      (if (10:ℚ) - 350 > 0 then (10:ℚ) - 350 - 360 else (10:ℚ) - 350 + 360) :=
  ⟨by norm_num, C2_shortest_arc_correction.1 350 10 (by norm_num)⟩

/-- C5 counterexample: the stored smoothed heading is NOT always in
[0,360): from previous = 1 and raw sample = 341 the code stores -5 (the JS
`%` keeps the dividend's sign and no renormalization follows). -/
theorem C5_counterexample :
    smoothStep 1 341 dampingFactor = -5 ∧ ¬(0 ≤ smoothStep 1 341 dampingFactor) := by
  have hc : correctedDelta 1 341 = -20 := by
    rw [correctedDelta]
    norm_num
  have h5 : smoothStep 1 341 dampingFactor = -5 := by
    rw [smoothStep, hc, dampingFactor]
    norm_num
    have h := jsRem_window_neg (a := -5) 0 (by norm_num) (by norm_num) (by norm_num)
    rw [h]
    norm_num
  exact ⟨h5, by rw [h5]; norm_num⟩

/-- C5 (amended): each stored value is `(previous + delta * d) % 360` with
the JS remainder and no further renormalization, so the smoothed state
always lies strictly between -360 and 360 but need not lie in [0,360). -/
theorem C5_amended_state_bounds :
    ∀ p r d : ℚ, -360 < smoothStep p r d ∧ smoothStep p r d < 360 :=
  fun p r d => jsRem_bounds (p + correctedDelta p r * d)

/-- C7: smoothing a stable input is the identity: for every heading h in
[0,360) and every damping factor d, smooth(h, h, d) = h. -/
theorem C7_stable_input_fixed_point :
    ∀ h d : ℚ, 0 ≤ h → h < 360 → smoothStep h h d = h := by
  intro h d h0 h1
  have hc : correctedDelta h h = 0 := by
    rw [correctedDelta]
    simp
  rw [smoothStep, hc]
  have hw := jsRem_window_pos (a := h + 0 * d) 0 le_rfl (by push_cast; linarith)
    (by push_cast; linarith)
  rw [hw]
  push_cast
  ring

/-- Witness for C7 at h = 90, d = 7/10. -/
theorem C7_witness :
    ((0:ℚ) ≤ 90 ∧ (90:ℚ) < 360) ∧ smoothStep 90 90 (7/10) = 90 :=
  ⟨⟨by norm_num, by norm_num⟩, C7_stable_input_fixed_point 90 (7/10) (by norm_num) (by norm_num)⟩

/-- C8: for fixed previous and raw sample (both headings in [0,360)) with
nonzero corrected delta, the circular distance moved in one smoothing step
is strictly increasing in the damping factor and bounded by |delta|. -/
theorem C8_damping_monotonicity :
    ∀ p r e f : ℚ, 0 ≤ p → p < 360 → 0 ≤ r → r < 360 →
      correctedDelta p r ≠ 0 → 0 < e → e < f → f ≤ 1 →
      circDist (smoothStep p r e) p < circDist (smoothStep p r f) p ∧
      circDist (smoothStep p r f) p ≤ |correctedDelta p r| := by
  intro p r e f hp0 hp1 hr0 hr1 hne he hef hf
  rw [circDist_smoothStep hp0 hp1 hr0 hr1 he.le (by linarith),
    circDist_smoothStep hp0 hp1 hr0 hr1 (by linarith) hf]
  constructor
  · exact mul_lt_mul_of_pos_left hef (abs_pos.mpr hne)
  · calc |correctedDelta p r| * f ≤ |correctedDelta p r| * 1 :=
        mul_le_mul_of_nonneg_left hf (abs_nonneg _)
    _ = |correctedDelta p r| := mul_one _

/-- Witness for C8 at previous = 0, raw = 90, damping factors 1/10 < 1/2. -/
theorem C8_witness :
    ((0:ℚ) < 1/10 ∧ (1:ℚ)/10 < 1/2 ∧ (1:ℚ)/2 ≤ 1 ∧ correctedDelta 0 90 ≠ 0) ∧
    (circDist (smoothStep 0 90 (1/10)) 0 < circDist (smoothStep 0 90 (1/2)) 0 ∧
      circDist (smoothStep 0 90 (1/2)) 0 ≤ |correctedDelta 0 90|) :=
  ⟨⟨by norm_num, by norm_num, by norm_num, by rw [correctedDelta]; norm_num⟩,
    C8_damping_monotonicity 0 90 (1/10) (1/2) (by norm_num) (by norm_num)
      (by norm_num) (by norm_num) (by rw [correctedDelta]; norm_num)
      (by norm_num) (by norm_num) (by norm_num)⟩

/-- C10: with the source's damping factor 0.3, one smoothing step from any
previous heading in [0,360) and any raw heading in [0,360) moves the
heading by at most 0.3 * 180 = 54 degrees of circular distance. -/
theorem C10_single_step_bound :
    ∀ p r : ℚ, 0 ≤ p → p < 360 → 0 ≤ r → r < 360 →
      circDist (smoothStep p r dampingFactor) p ≤ 54 := by
  intro p r hp0 hp1 hr0 hr1
  rw [dampingFactor, circDist_smoothStep hp0 hp1 hr0 hr1 (by norm_num) (by norm_num)]
  have h := correctedDelta_abs_le hp0 hp1 hr0 hr1
  linarith [abs_nonneg (correctedDelta p r)]

/-- Witness for C10 at previous = 0, raw = 90. -/
theorem C10_witness :
    (((0:ℚ) ≤ 0 ∧ (0:ℚ) < 360) ∧ ((0:ℚ) ≤ 90 ∧ (90:ℚ) < 360)) ∧
    circDist (smoothStep 0 90 dampingFactor) 0 ≤ 54 :=
  ⟨⟨⟨le_rfl, by norm_num⟩, ⟨by norm_num, by norm_num⟩⟩,
    C10_single_step_bound 0 90 (by norm_num) (by norm_num) (by norm_num) (by norm_num)⟩

lemma jsRem_zero : jsRem 0 360 = 0 := by
  have h := jsRem_window_pos (a := (0:ℚ)) 0 le_rfl (by norm_num) (by norm_num)
  rw [h]
  norm_num

lemma jsRem_neg400 : jsRem (-400) 360 = -40 := by
  have h := jsRem_window_neg (a := (-400:ℚ)) (-1) (by norm_num) (by norm_num) (by norm_num)
  rw [h]
  norm_num

lemma jsRem_neg40 : jsRem (-40) 360 = -40 := by
  have h := jsRem_window_neg (a := (-40:ℚ)) 0 (by norm_num) (by norm_num) (by norm_num)
  rw [h]
  norm_num

lemma getCardinalDirection_neg400 : getCardinalDirection (-400) = "N" := by
  rw [getCardinalDirection, show ((-400:ℚ) + 360) = -40 by norm_num, jsRem_neg40]
  norm_num [CARDINAL_DIRECTIONS, dirMatches, List.find?]

lemma getCardinalDirection_320 : getCardinalDirection 320 = "NW" := by
  rw [getCardinalDirection, norm_of_mem (by norm_num) (by norm_num)]
  norm_num [CARDINAL_DIRECTIONS, dirMatches, List.find?]

lemma specNormalize_neg400 : jsRem (jsRem (-400) 360 + 360) 360 = 320 := by
  rw [jsRem_neg400, show ((-40:ℚ) + 360) = 320 by norm_num,
    jsRem_window_pos (a := (320:ℚ)) 0 le_rfl (by norm_num) (by norm_num)]
  norm_num

/-- C4 counterexample: the code normalizes via `(angle + 360) % 360` (JS
remainder), not `((angle % 360) + 360) % 360`; at angle = -400 the two
disagree: the code classifies -400 as "N" (its normalized value -40 is
negative and satisfies the wraparound test -40 < 22.5), while the fully
normalized angle 320 classifies as "NW". -/
theorem C4_counterexample :
    getCardinalDirection (-400) = "N" ∧
    jsRem (jsRem (-400) 360 + 360) 360 = 320 ∧
    getCardinalDirection (jsRem (jsRem (-400) 360 + 360) 360) = "NW" ∧
    getCardinalDirection (-400) ≠ getCardinalDirection (jsRem (jsRem (-400) 360 + 360) 360) := by
  have h3 : getCardinalDirection (jsRem (jsRem (-400) 360 + 360) 360) = "NW" := by
    rw [specNormalize_neg400, getCardinalDirection_320]
  refine ⟨getCardinalDirection_neg400, specNormalize_neg400, h3, ?_⟩
  rw [getCardinalDirection_neg400, h3]
  decide

/-- C4 (amended): for every angle greater than or equal to -360 — the
range where `(angle + 360) % 360` agrees with `((angle % 360) + 360) % 360`
— classification of the angle agrees with classification of the fully
normalized angle.  (For angles below -360 the two disagree; see the
counterexample at -400.) -/
theorem C4_amended_normalization :
    ∀ a : ℚ, -360 ≤ a →
      getCardinalDirection a = getCardinalDirection (jsRem (jsRem a 360 + 360) 360) := by
  intro a ha
  rcases le_or_lt 0 a with h0 | h0
  · have h1 : jsRem a 360 = mathMod a := jsRem_eq_mathMod h0
    obtain ⟨hm0, hm1⟩ := mathMod_bounds a
    have h2 : jsRem (mathMod a + 360) 360 = mathMod a := norm_of_mem hm0 hm1
    have h3 : jsRem (a + 360) 360 = mathMod a := by
      rw [jsRem_eq_mathMod (by linarith),
        show a + 360 = a + 360 * ((1:ℤ):ℚ) by push_cast; ring,
        mathMod_add_int_mul]
    simp only [getCardinalDirection]
    rw [h1, h2, h3, h2]
  · rcases eq_or_lt_of_le ha with heq | hlt
    · rw [← heq]
      have e1 : jsRem ((-360:ℚ)) 360 = 0 := by
        have h := jsRem_window_neg (a := (-360:ℚ)) (-1) (by norm_num) (by norm_num)
          (by norm_num)
        rw [h]
        norm_num
      have e3 : jsRem ((0:ℚ) + 360) 360 = 0 := norm_of_mem le_rfl (by norm_num)
      simp only [getCardinalDirection]
      rw [e1, e3, e3, show ((-360:ℚ) + 360) = 0 by norm_num, jsRem_zero]
    · have h1 : jsRem a 360 = a := by
        have h := jsRem_window_neg (a := a) 0 (by push_cast; linarith)
          (by push_cast; linarith) h0
        rw [h]
        push_cast
        ring
      have h2 : jsRem (a + 360) 360 = a + 360 := by
        have h := jsRem_window_pos (a := a + 360) 0 le_rfl (by push_cast; linarith)
          (by push_cast; linarith)
        rw [h]
        push_cast
        ring
      have h3 : jsRem (a + 360 + 360) 360 = a + 360 := norm_of_mem (by linarith) (by linarith)
      simp only [getCardinalDirection]
      rw [h1, h2, h3]

/-- Witness for C4's amended claim at angle 45. -/
theorem C4_witness :
    (-360:ℚ) ≤ 45 ∧
    getCardinalDirection 45 = getCardinalDirection (jsRem (jsRem 45 360 + 360) 360) :=
  ⟨by norm_num, C4_amended_normalization 45 (by norm_num)⟩

lemma listenerDirStep_preserves {st : String} (lab : String)
    (h : PRIMARY_DIRECTIONS.contains st = true) :
    PRIMARY_DIRECTIONS.contains (listenerDirStep st lab).2 = true := by
  rw [listenerDirStep]
  split_ifs with hP hNe <;> simp_all

lemma runDirections_preserves : ∀ (labels : List String) (st : String),
    PRIMARY_DIRECTIONS.contains st = true →
    PRIMARY_DIRECTIONS.contains (runDirections labels st).2 = true := by
  intro labels
  induction labels with
  | nil => intro st h; exact h
  | cons l ls ih =>
    intro st h
    simp only [runDirections]
    exact ih _ (listenerDirStep_preserves l h)

/-- C3: the change event fires exactly at entry to a primary label distinct
from the recorded last label; the recorded last label, once primary, stays
primary over any sample sequence (a diagonal never becomes lastLabel); and
on the label sequence N, NE, N, NE, E starting with lastLabel = N the event
fires only once, at the final E — never on a diagonal and never twice for
the same primary label. -/
theorem C3_edge_trigger :
    (∀ lab st : String, (listenerDirStep st lab).1 = true ↔
      (PRIMARY_DIRECTIONS.contains lab = true ∧ lab ≠ st)) ∧
    (∀ (labels : List String) (st : String),
      PRIMARY_DIRECTIONS.contains st = true →
      PRIMARY_DIRECTIONS.contains (runDirections labels st).2 = true) ∧
    (runDirections ["N", "NE", "N", "NE", "E"] ("N")).1 =
      [false, false, false, false, true] := by
  refine ⟨fun lab st => ?_, runDirections_preserves, by decide⟩
  rw [listenerDirStep]
  split_ifs with hP hNe <;> simp_all

/-- Witness for C3's lastLabel invariant on a concrete diagonal-heavy run. -/
theorem C3_witness :
    PRIMARY_DIRECTIONS.contains ("N") = true ∧
    PRIMARY_DIRECTIONS.contains (runDirections ["NE", "SE", "E", "NW"] ("N")).2 = true :=
  ⟨by decide, C3_edge_trigger.2.1 ["NE", "SE", "E", "NW"] ("N") (by decide)⟩

lemma nanSmoothStep_finite (p r : ℚ) :
    nanSmoothStep (some p) (some r) = some (smoothStep p r dampingFactor) := by
  simp only [nanSmoothStep, nSub, nAbs, nGt, nAdd, nMul, nJsRem, Option.map,
    smoothStep, correctedDelta, decide_eq_true_eq]
  split_ifs <;> simp_all

/-- C6: the code does NOT reject non-finite input.  A `NaN` heading (from a
`NaN` sample coordinate) flows through the callback unimpeded — both guard
comparisons are false on `NaN` — and the stored smoothed heading becomes
`NaN` instead of being preserved, after which every subsequent sample also
yields `NaN`.  (On all-finite values the same computation agrees with
`smoothStep`.) -/
theorem C6_nan_not_rejected :
    nanSmoothStep (some 0) none = none ∧
    nanSmoothStep (some 0) none ≠ some 0 ∧
    (∀ h : ℚ, nanSmoothStep none (some h) = none) := by
  refine ⟨rfl, ?_, fun _ => rfl⟩
  intro hc
  rw [show nanSmoothStep (some 0) none = none from rfl] at hc
  exact Option.noConfusion hc

/-- C9: the degenerate sample x = 0, y = 0 yields raw heading 0 (JS
`Math.atan2(0,0) = 0`) and is processed like any other sample, and every
sample's raw heading lies in [0,360). -/
theorem C9_raw_heading_range :
    rawHeading 0 0 = 0 ∧ ∀ x y : ℝ, 0 ≤ rawHeading x y ∧ rawHeading x y < 360 := by
  constructor
  · rw [rawHeading, atan2]
    have h0 : (⟨0, 0⟩ : ℂ) = 0 := by
      apply Complex.ext <;> simp
    rw [h0, Complex.arg_zero]
    simp
  · intro x y
    have hπ := Real.pi_pos
    have hub : atan2 y x * (180 / Real.pi) ≤ 180 := by
      rw [atan2]
      calc Complex.arg ⟨x, y⟩ * (180 / Real.pi) ≤ Real.pi * (180 / Real.pi) :=
        mul_le_mul_of_nonneg_right (Complex.arg_le_pi _) (by positivity)
      _ = 180 := by field_simp
    have hpe : Real.pi * (180 / Real.pi) = 180 := by field_simp
    have hlb : -180 < atan2 y x * (180 / Real.pi) := by
      rw [atan2]
      have harg := Complex.neg_pi_lt_arg (⟨x, y⟩ : ℂ)
      have hm := mul_lt_mul_of_pos_right harg
        (show (0:ℝ) < 180 / Real.pi by positivity)
      calc (-180:ℝ) = -(Real.pi * (180 / Real.pi)) := by rw [hpe]
      _ = -Real.pi * (180 / Real.pi) := by ring
      _ < Complex.arg ⟨x, y⟩ * (180 / Real.pi) := hm
    rw [rawHeading]
    split_ifs with hge
    · exact ⟨hge, by linarith⟩
    · push_neg at hge
      constructor <;> linarith
